import Mathlib

/-!
Shallow embedding of the errsole-mongodb storage plugin (`lib/index.js`).

Modelling conventions:
- MongoDB ObjectIds are modelled by `OId`, a wrapper around a natural number;
  the source relies only on ObjectIds being totally ordered and convertible to
  a string (`_id.toString()`), modelled by `OId.str`.
- A stored log document is `StoredLog`; the logs collection is a `List StoredLog`.
- JavaScript truthiness is modelled per field: a string option is truthy when
  it is `some s` with `s` nonempty, a number option when it is `some n` with
  `n ≠ 0`, an array option is truthy whenever it is `some` (JS arrays are
  always truthy), and ObjectId/Date options are truthy whenever `some`
  (objects are always truthy).
- The Mongo query object built by `getLogs`/`searchLogs` is reified as
  `LogQuery`; its matching semantics against a document is `logMatches`.
- `find(query).sort(s).limit(n)` is modelled by `mongoFind`: filter the
  collection by the query, stably sort by the sort key, truncate to the limit.
- Asynchronous results are `Settled`: `resolved` models a value returned by
  an async function, `rejected` models a thrown error.
-/

/-- MongoDB ObjectId, modelled as a wrapper around a natural number: the
source only relies on ObjectIds being totally ordered and stringifiable. -/
structure OId where
  val : Nat
deriving DecidableEq

/-- Embedding of `ObjectId.prototype.toString()`. -/
def OId.str (o : OId) : String := toString o.val

/-- A JS value used in an `id` field of a returned item: either a string
(produced via `toString()`) or a raw ObjectId. -/
inductive IdVal
  | strId (s : String)
  | rawId (o : OId)
deriving DecidableEq

/-- One `{source, level}` pair of the `level_json` filter field. -/
structure LevelPair where
  source : String
  level : String
deriving DecidableEq

/-- A stored log document of the `errsole_logs` collection. -/
structure StoredLog where
  _id : OId
  errsole_id : Option Int
  timestamp : Nat
  hostname : String
  pid : Option Nat
  source : String
  level : String
  message : String
  meta : Option String
deriving DecidableEq

/-- The `LogFilter` argument of `getLogs`/`searchLogs` (see the typedef at the
top of `lib/index.js`). `none` models an absent (undefined) field. -/
structure LogFilter where
  hostname : Option String := none
  hostnames : Option (List String) := none
  pid : Option Nat := none
  sources : Option (List String) := none
  levels : Option (List String) := none
  level_json : Option (List LevelPair) := none
  errsole_id : Option Int := none
  lt_id : Option OId := none
  gt_id : Option OId := none
  lte_timestamp : Option Nat := none
  gte_timestamp : Option Nat := none
  limit : Option Nat := none
deriving DecidableEq

/-- The `query.hostname` field: either an equality (`query.hostname = h`) or
an `$in` condition (`query.hostname = {$in: hs}`); the second assignment in
the source overwrites the first. -/
inductive HostCond
  | hostEq (h : String)
  | hostIn (hs : List String)
deriving DecidableEq

/-- One alternative of the `$or` array: either a `{source, level}` pair
(both the `$and`-shaped form of the first `level_json` block and the flat
form of the second block have this matching semantics) or an
`{errsole_id: n}` condition. -/
inductive OrCond
  | levelPair (source level : String)
  | errsoleEq (e : Int)
deriving DecidableEq

/-- The reified Mongo query object built by `getLogs`/`searchLogs`.
`none` in a field means the source never assigned that key. -/
structure LogQuery where
  text : Option (List String) := none
  hostname : Option HostCond := none
  pidEq : Option Nat := none
  sourceIn : Option (List String) := none
  levelIn : Option (List String) := none
  orConds : Option (List OrCond) := none
  idLt : Option OId := none
  idGt : Option OId := none
  tsLte : Option Nat := none
  tsGte : Option Nat := none
deriving DecidableEq

/-- Does the character list `l` start with `p`? (Executable helper for the
text-search model.) -/
def chStartsWith : List Char → List Char → Bool
  | _, [] => true
  | [], _ :: _ => false
  | a :: as, b :: bs => a == b && chStartsWith as bs

/-- Does `pat` occur as a contiguous substring of `hay`? -/
def strHasSub (hay pat : String) : Bool :=
  (List.range (hay.data.length + 1)).any fun i => chStartsWith (hay.data.drop i) pat.data

/-- Modelled from the spec: the `$text: {$search: quotedTerms.join(' ')}`
predicate of `searchLogs` — the storage engine's full-text matcher is not part
of this repository; quoted phrases are conjunctive, so a document matches when
every search term occurs in its message. -/
def textMatches (terms : Option (List String)) (d : StoredLog) : Bool :=
  match terms with
  | none => true
  | some ts => ts.all fun t => strHasSub d.message t

/-- Matching semantics of the `query.hostname` condition. -/
def hostMatch (c : Option HostCond) (d : StoredLog) : Bool :=
  match c with
  | none => true
  | some (.hostEq h) => d.hostname == h
  | some (.hostIn hs) => hs.contains d.hostname

/-- Matching semantics of one `$or` alternative. -/
def condMatches (c : OrCond) (d : StoredLog) : Bool :=
  match c with
  | .levelPair s l => d.source == s && d.level == l
  | .errsoleEq e => d.errsole_id == some e

/-- Matching semantics of `query.pid`. -/
def pidMatch (c : Option Nat) (d : StoredLog) : Bool :=
  match c with
  | none => true
  | some p => d.pid == some p

/-- Matching semantics of `query.source = {$in: l}`. -/
def sourceMatch (c : Option (List String)) (d : StoredLog) : Bool :=
  match c with
  | none => true
  | some l => l.contains d.source

/-- Matching semantics of `query.level = {$in: l}`. -/
def levelMatch (c : Option (List String)) (d : StoredLog) : Bool :=
  match c with
  | none => true
  | some l => l.contains d.level

/-- Matching semantics of the `$or` array (a document matches when some
alternative matches). -/
def orMatch (c : Option (List OrCond)) (d : StoredLog) : Bool :=
  match c with
  | none => true
  | some l => l.any fun cond => condMatches cond d

/-- Matching semantics of `query._id = {$lt: v}`. -/
def idLtMatch (c : Option OId) (d : StoredLog) : Bool :=
  match c with
  | none => true
  | some v => decide (d._id.val < v.val)

/-- Matching semantics of `query._id = {$gt: v}`. -/
def idGtMatch (c : Option OId) (d : StoredLog) : Bool :=
  match c with
  | none => true
  | some v => decide (v.val < d._id.val)

/-- Matching semantics of `query.timestamp.$lte`. -/
def tsLteMatch (c : Option Nat) (d : StoredLog) : Bool :=
  match c with
  | none => true
  | some t => decide (d.timestamp ≤ t)

/-- Matching semantics of `query.timestamp.$gte`. -/
def tsGteMatch (c : Option Nat) (d : StoredLog) : Bool :=
  match c with
  | none => true
  | some t => decide (t ≤ d.timestamp)

/-- A document matches a `LogQuery` when it satisfies every condition the
query carries (Mongo top-level query fields are conjunctive). -/
def logMatches (q : LogQuery) (d : StoredLog) : Bool :=
  textMatches q.text d && hostMatch q.hostname d && pidMatch q.pidEq d &&
  sourceMatch q.sourceIn d && levelMatch q.levelIn d && orMatch q.orConds d &&
  idLtMatch q.idLt d && idGtMatch q.idGt d &&
  tsLteMatch q.tsLte d && tsGteMatch q.tsGte d

/-- The four sort orders the source assigns to `sortOrder`:
`{_id:-1}`, `{_id:1}`, `{timestamp:-1}`, `{timestamp:1}`. -/
inductive SortKey
  | idDesc
  | idAsc
  | tsDesc
  | tsAsc
deriving DecidableEq

/-- The integer sort field realising a `SortKey`: descending orders sort by
the negated field. -/
def sortField (s : SortKey) (d : StoredLog) : Int :=
  match s with
  | .idDesc => -(d._id.val : Int)
  | .idAsc => (d._id.val : Int)
  | .tsDesc => -(d.timestamp : Int)
  | .tsAsc => (d.timestamp : Int)

/-- The sort relation of a `SortKey`. -/
def sortLe (s : SortKey) (a b : StoredLog) : Prop := sortField s a ≤ sortField s b

instance (s : SortKey) : DecidableRel (sortLe s) := fun a b => by
  unfold sortLe; infer_instance

instance (s : SortKey) : IsTotal StoredLog (sortLe s) := ⟨fun _ _ => Int.le_total _ _⟩

instance (s : SortKey) : IsTrans StoredLog (sortLe s) := ⟨fun _ _ _ h1 h2 => le_trans h1 h2⟩

/-- Embedding of `find(query, {projection: {meta: 0}}).sort(s).limit(lim).toArray()`:
the matching documents, stably sorted by the sort key, truncated to the limit.
The `meta` projection is applied at the formatting step (`formatLog`). -/
def mongoFind (coll : List StoredLog) (q : LogQuery) (s : SortKey) (lim : Nat) : List StoredLog :=
  ((coll.filter fun d => logMatches q d).insertionSort (sortLe s)).take lim

/-- Embedding of `filters.limit = filters.limit || defaultLimit` with
`defaultLimit = 100` (`0` is falsy in JS, so it also falls back to 100). -/
def effLimit (f : LogFilter) : Nat :=
  match f.limit with
  | some n => if n != 0 then n else 100
  | none => 100

/-- Query construction and cursor/sort resolution of `getLogs`
(`lib/index.js` lines 268–337), as a pure function from the filter to the
built query, the sort order, and the `shouldReverse` flag.  Each sequential
`let` mirrors one conditional assignment of the source; the JS truthiness of
each tested field is spelled out per the conventions above. -/
def getLogsPlan (f : LogFilter) : LogQuery × SortKey × Bool :=
  let q : LogQuery := {}
  -- if (filters.hostname) query.hostname = filters.hostname
  let q := match f.hostname with
    | some h => if h != "" then { q with hostname := some (.hostEq h) } else q
    | none => q
  -- if (filters.hostnames && filters.hostnames.length > 0) query.hostname = {$in: ...}
  let q := match f.hostnames with
    | some hs => if hs.length > 0 then { q with hostname := some (.hostIn hs) } else q
    | none => q
  -- if (filters.pid) query.pid = filters.pid
  let q := match f.pid with
    | some p => if p != 0 then { q with pidEq := some p } else q
    | none => q
  -- if (filters.sources) query.source = {$in: filters.sources}
  let q := match f.sources with
    | some s => { q with sourceIn := some s }
    | none => q
  -- if (filters.levels) query.level = {$in: filters.levels}
  let q := match f.levels with
    | some l => { q with levelIn := some l }
    | none => q
  -- if (filters.level_json) query.$or = level_json.map(... {$and: [{source},{level}]})
  let q := match f.level_json with
    | some pairs => { q with orConds := some (pairs.map fun p => OrCond.levelPair p.source p.level) }
    | none => q
  -- if (filters.level_json || filters.errsole_id) { ... if nonempty, query.$or = orConditions }
  let q :=
    if f.level_json.isSome || (match f.errsole_id with | some e => e != 0 | none => false) then
      let orConditions : List OrCond :=
        (match f.level_json with
          | some pairs => if pairs.length > 0 then pairs.map (fun p => OrCond.levelPair p.source p.level) else []
          | none => []) ++
        (match f.errsole_id with
          | some e => if e != 0 then [OrCond.errsoleEq e] else []
          | none => [])
      if orConditions.length > 0 then { q with orConds := some orConditions } else q
    else q
  -- cursor/sort resolution; initial sortOrder = {_id: -1}, shouldReverse = true
  if f.lt_id.isSome then
    ({ q with idLt := f.lt_id }, .idDesc, true)
  else if f.gt_id.isSome then
    ({ q with idGt := f.gt_id }, .idAsc, false)
  else if f.lte_timestamp.isSome || f.gte_timestamp.isSome then
    let sr1 : SortKey × Bool := if f.lte_timestamp.isSome then (.tsDesc, true) else (.idDesc, true)
    let sr2 : SortKey × Bool := if f.gte_timestamp.isSome then (.tsAsc, false) else sr1
    ({ q with tsLte := f.lte_timestamp, tsGte := f.gte_timestamp }, sr2.1, sr2.2)
  else
    (q, .idDesc, true)

/-- Query construction and cursor/sort resolution of `searchLogs`
(`lib/index.js` lines 367–441).  Identical to `getLogsPlan` except that the
query starts from the `$text` predicate and the initial `sortOrder` is
`{timestamp: -1}` (line 418) rather than `{_id: -1}`. -/
def searchLogsPlan (searchTerms : List String) (f : LogFilter) : LogQuery × SortKey × Bool :=
  let q : LogQuery := { text := some searchTerms }
  let q := match f.hostname with
    | some h => if h != "" then { q with hostname := some (.hostEq h) } else q
    | none => q
  let q := match f.hostnames with
    | some hs => if hs.length > 0 then { q with hostname := some (.hostIn hs) } else q
    | none => q
  let q := match f.pid with
    | some p => if p != 0 then { q with pidEq := some p } else q
    | none => q
  let q := match f.sources with
    | some s => { q with sourceIn := some s }
    | none => q
  let q := match f.levels with
    | some l => { q with levelIn := some l }
    | none => q
  let q := match f.level_json with
    | some pairs => { q with orConds := some (pairs.map fun p => OrCond.levelPair p.source p.level) }
    | none => q
  let q :=
    if f.level_json.isSome || (match f.errsole_id with | some e => e != 0 | none => false) then
      let orConditions : List OrCond :=
        (match f.level_json with
          | some pairs => if pairs.length > 0 then pairs.map (fun p => OrCond.levelPair p.source p.level) else []
          | none => []) ++
        (match f.errsole_id with
          | some e => if e != 0 then [OrCond.errsoleEq e] else []
          | none => [])
      if orConditions.length > 0 then { q with orConds := some orConditions } else q
    else q
  -- cursor/sort resolution; initial sortOrder = {timestamp: -1}, shouldReverse = true
  if f.lt_id.isSome then
    ({ q with idLt := f.lt_id }, .idDesc, true)
  else if f.gt_id.isSome then
    ({ q with idGt := f.gt_id }, .idAsc, false)
  else if f.lte_timestamp.isSome || f.gte_timestamp.isSome then
    let sr1 : SortKey × Bool := if f.lte_timestamp.isSome then (.tsDesc, true) else (.tsDesc, true)
    let sr2 : SortKey × Bool := if f.gte_timestamp.isSome then (.tsAsc, false) else sr1
    ({ q with tsLte := f.lte_timestamp, tsGte := f.gte_timestamp }, sr2.1, sr2.2)
  else
    (q, .tsDesc, true)

/-- A formatted item returned by `getLogs`/`searchLogs`: the engine key
`_id` is replaced by the string field `id`, and `meta` is absent because the
find projection excluded it (modelled as `none`). -/
structure LogItem where
  id : IdVal
  errsole_id : Option Int
  timestamp : Nat
  hostname : String
  pid : Option Nat
  source : String
  level : String
  message : String
  meta : Option String
deriving DecidableEq

/-- Embedding of `documents.map(doc => {const {_id, ...rest} = doc; return {id: _id.toString(), ...rest}})`
composed with the `{meta: 0}` projection. -/
def formatLog (d : StoredLog) : LogItem :=
  { id := .strId (OId.str d._id), errsole_id := d.errsole_id,
    timestamp := d.timestamp, hostname := d.hostname, pid := d.pid,
    source := d.source, level := d.level, message := d.message, meta := none }

/-- The `{items: ...}` result shape of `getLogs`/`searchLogs`. -/
structure ItemsResult where
  items : List LogItem
deriving DecidableEq

/-- The document list fetched by `getLogs` after the in-memory reversal
(lines 339–347): fetch with the resolved query/sort/limit, then reverse when
`shouldReverse` is set. -/
def getLogsDocs (f : LogFilter) (coll : List StoredLog) : List StoredLog :=
  let p := getLogsPlan f
  let docs := mongoFind coll p.1 p.2.1 (effLimit f)
  if p.2.2 then docs.reverse else docs

/-- Embedding of `getLogs(filters)` (lines 264–355). -/
def getLogs (f : LogFilter) (coll : List StoredLog) : ItemsResult :=
  ⟨(getLogsDocs f coll).map formatLog⟩

/-- The document list fetched by `searchLogs` after the in-memory reversal
(lines 443–451). -/
def searchLogsDocs (searchTerms : List String) (f : LogFilter) (coll : List StoredLog) : List StoredLog :=
  let p := searchLogsPlan searchTerms f
  let docs := mongoFind coll p.1 p.2.1 (effLimit f)
  if p.2.2 then docs.reverse else docs

/-- Embedding of `searchLogs(searchTerms, filters)` (lines 367–459). -/
def searchLogs (searchTerms : List String) (f : LogFilter) (coll : List StoredLog) : ItemsResult :=
  ⟨(searchLogsDocs searchTerms f coll).map formatLog⟩

/-- Outcome of an async function: `resolved` is a value the returned promise
resolves with, `rejected` models a thrown error. -/
inductive Settled (α : Type)
  | resolved (val : α)
  | rejected (msg : String)
deriving DecidableEq

/-- The `{item: {id, meta}}` payload of `getMeta`.  Note the `id` field holds
an `IdVal`, because the source assigns `id: result._id` without `toString()`. -/
structure MetaItem where
  id : IdVal
  meta : Option String
deriving DecidableEq

/-- Embedding of `getMeta(id)` (lines 470–479): `findOne({_id}, {projection: {meta: 1}})`,
throwing when no document matches, else returning `{item: {id: result._id, meta: result.meta}}`. -/
def getMeta (id : OId) (coll : List StoredLog) : Settled MetaItem :=
  match coll.find? (fun d => d._id == id) with
  | none => .rejected "Log entry not found."
  | some result => .resolved { id := .rawId result._id, meta := result.meta }

/-- Result values of `getHostnames`: either the `{items}` object or the
caught error object returned as the resolved value. -/
inductive HostnamesOutcome
  | items (hostnames : List String)
  | errVal (e : String)
deriving DecidableEq

/-- Embedding of `getHostnames()` (lines 240–253).  The `distinct('hostname', ...)`
storage call either yields the distinct hostname list or throws; the source
wraps the whole body in try/catch and returns the caught error as the resolved
value.  On success the hostnames are filtered by `Boolean` (dropping empty
strings) and sorted. -/
def getHostnames (dbResult : Except String (List String)) : Settled HostnamesOutcome :=
  match dbResult with
  | .ok hostnames =>
      .resolved (.items ((hostnames.filter fun h => h != "").insertionSort fun a b => a ≤ b))
  | .error err => .resolved (.errVal err)

/-- State of the write buffer and its storage backend.  `pending` is
`this.pendingLogs`; `inFlight` holds batches claimed by a flush whose
`insertMany` has been issued but has not settled yet; `stored` is the logs
collection contents; `storageCalls` counts issued `insertMany` calls. -/
structure BufState (α : Type) where
  pending : List α := []
  inFlight : List (List α) := []
  stored : List α := []
  storageCalls : Nat := 0
deriving DecidableEq

/-- Embedding of `postLogs(logEntries)` (lines 200–206): synchronously append
the entries to the pending buffer.  (The batch-size trigger fires
`flushLogs()` fire-and-forget; in the interleaving model a triggered flush is
simply a subsequent `flushBegin`/`flushCommit` pair of operations.) -/
def postLogs (s : BufState α) (logEntries : List α) : BufState α :=
  { s with pending := s.pending ++ logEntries }

/-- First half of `flushLogs()` (lines 216–225), up to the `await insertMany`
suspension point: `splice(0, length)` atomically claims the whole pending
buffer; when the claimed batch is empty the function returns `{}` at once
(`some (.resolved ())`) without any storage call, otherwise the batch becomes
in-flight and the eventual result comes from `flushSettle`. -/
def flushClaim (s : BufState α) : BufState α × Option (Settled Unit) :=
  let logsToPost := s.pending
  let s1 : BufState α := { s with pending := [] }
  if logsToPost.isEmpty then
    (s1, some (.resolved ()))
  else
    ({ s1 with inFlight := s1.inFlight ++ [logsToPost] }, none)

/-- Result values of a completed flush: `{}` on success or the caught error
object returned (not thrown) on insert failure. -/
inductive FlushOutcome
  | ok
  | errVal (e : String)
deriving DecidableEq

/-- Second half of `flushLogs()` (lines 224–229): the `insertMany` of the
oldest in-flight batch settles.  On success the batch is appended to the
collection and `{}` is returned; on failure the batch is dropped — it is not
requeued to `pending` — and the error is returned as the resolved value
(`return err`), never thrown. -/
def flushSettle (s : BufState α) (outcome : Except String Unit) : BufState α × Settled FlushOutcome :=
  match s.inFlight with
  | [] => (s, .resolved .ok)
  | b :: rest =>
    match outcome with
    | .ok _ =>
        ({ s with inFlight := rest, stored := s.stored ++ b, storageCalls := s.storageCalls + 1 },
         .resolved .ok)
    | .error e =>
        ({ s with inFlight := rest, storageCalls := s.storageCalls + 1 },
         .resolved (.errVal e))

/-- One atomic step of the buffer's event-loop interleaving: an ingestion
call, the synchronous prefix of a flush, or the settling of an in-flight
insert (successful here; the failure path is studied separately). -/
inductive BufOp (α : Type)
  | post (logEntries : List α)
  | flushBegin
  | flushCommit

/-- Apply one interleaving step to the buffer state. -/
def runOp (s : BufState α) : BufOp α → BufState α
  | .post es => postLogs s es
  | .flushBegin => (flushClaim s).1
  | .flushCommit => (flushSettle s (.ok ())).1

/-- Run an interleaving of buffer operations. -/
def runOps (s : BufState α) : List (BufOp α) → BufState α
  | [] => s
  | op :: ops => runOps (runOp s op) ops

/-- All entries ingested by the `post` steps of an interleaving, in order. -/
def postedEntries : List (BufOp α) → List α
  | [] => []
  | .post es :: ops => es ++ postedEntries ops
  | .flushBegin :: ops => postedEntries ops
  | .flushCommit :: ops => postedEntries ops

/-- Every entry currently alive somewhere in the pipeline: already stored,
claimed by an in-flight flush, or still pending. -/
def liveEntries (s : BufState α) : List α :=
  s.stored ++ s.inFlight.flatten ++ s.pending

/-- A Mongo index descriptor as returned by `collection.indexes()`: its name,
the keys of its `key` document (`Object.keys(index.key)`), and the optional
`expireAfterSeconds` attribute. -/
structure MongoIndex where
  name : String
  key : List String
  expireAfterSeconds : Option Nat := none
deriving DecidableEq

/-- The predicate of line 515: `index.expireAfterSeconds &&
Object.keys(index.key).includes('timestamp')` — note JS truthiness makes an
expiry of `0` fail the first conjunct. -/
def isTTLIndexOnTimestamp (i : MongoIndex) : Bool :=
  (match i.expireAfterSeconds with
    | some s => s != 0
    | none => false)
  && i.key.contains "timestamp"

/-- Embedding of `dropIndex(name)`: the index of that name is removed. -/
def dropIndex (indexes : List MongoIndex) (name : String) : List MongoIndex :=
  indexes.filter fun i => i.name != name

/-- Embedding of `updateLogsCollectionTTL(logsTTL)` (lines 512–523) as a
function of the current index list, returning the new index list together
with the number of `dropIndex` and `createIndex` mutations issued.  The
created index `{timestamp: 1}` gets Mongo's default name `timestamp_1` and is
appended.  (`parseInt(logsTTL)/1000` is modelled on naturals; the claims
compare the quotient only with itself, so its exact rounding is immaterial.) -/
def updateLogsCollectionTTL (logsTTL : Nat) (indexes : List MongoIndex) :
    List MongoIndex × Nat × Nat :=
  let ttlInSeconds := logsTTL / 1000
  match indexes.find? isTTLIndexOnTimestamp with
  | none =>
      (indexes ++ [{ name := "timestamp_1", key := ["timestamp"], expireAfterSeconds := some ttlInSeconds }], 0, 1)
  | some ttlIndex =>
      if ttlIndex.expireAfterSeconds ≠ some ttlInSeconds then
        (dropIndex indexes ttlIndex.name ++ [{ name := "timestamp_1", key := ["timestamp"], expireAfterSeconds := some ttlInSeconds }], 1, 1)
      else
        (indexes, 0, 0)

/-- A concrete stored log (id 1, timestamp 10) used in witness and
counterexample instances. -/
def logA : StoredLog :=
  { _id := ⟨1⟩, errsole_id := none, timestamp := 10, hostname := "h", pid := none,
    source := "console", level := "info", message := "x", meta := none }

/-- A concrete stored log (id 2, timestamp 5): its id order and timestamp
order disagree with `logA`. -/
def logB : StoredLog :=
  { _id := ⟨2⟩, errsole_id := none, timestamp := 5, hostname := "h", pid := none,
    source := "console", level := "error", message := "x", meta := none }

/-- A concrete collection of five logs with ids 1..5. -/
def coll5 : List StoredLog :=
  (List.range 5).map fun n =>
    { _id := ⟨n + 1⟩, errsole_id := none, timestamp := n, hostname := "h", pid := none,
      source := "console", level := "info", message := "m", meta := none }

/-- A concrete stored log carrying a `meta` payload. -/
def dM : StoredLog :=
  { _id := ⟨7⟩, errsole_id := none, timestamp := 1, hostname := "h", pid := none,
    source := "console", level := "info", message := "m", meta := some "payload" }

theorem mem_mongoFind {coll : List StoredLog} {q : LogQuery} {s : SortKey} {lim : Nat}
    {d : StoredLog} (h : d ∈ mongoFind coll q s lim) : d ∈ coll ∧ logMatches q d = true := by
  unfold mongoFind at h
  have h1 : d ∈ (coll.filter fun d => logMatches q d).insertionSort (sortLe s) :=
    (List.take_sublist _ _).mem h
  have h2 := (List.mem_insertionSort (sortLe s)).mp h1
  exact ⟨(List.mem_filter.mp h2).1, (List.mem_filter.mp h2).2⟩

theorem pairwise_mongoFind (coll : List StoredLog) (q : LogQuery) (s : SortKey) (lim : Nat) :
    (mongoFind coll q s lim).Pairwise (sortLe s) := by
  unfold mongoFind
  exact (List.sorted_insertionSort (sortLe s) _).sublist (List.take_sublist _ _)

theorem getLogsPlan_lt {f : LogFilter} {v : OId} (h : f.lt_id = some v) :
    (getLogsPlan f).1.idLt = some v ∧ (getLogsPlan f).2 = (SortKey.idDesc, true) := by
  simp [getLogsPlan, h]

theorem getLogsDocs_eq (f : LogFilter) (coll : List StoredLog) :
    getLogsDocs f coll =
      (if (getLogsPlan f).2.2 then
        (mongoFind coll (getLogsPlan f).1 (getLogsPlan f).2.1 (effLimit f)).reverse
      else mongoFind coll (getLogsPlan f).1 (getLogsPlan f).2.1 (effLimit f)) := rfl

/-- C1: when the filter carries `lt_id = v`, every document returned by
`getLogs` has id strictly below `v` and the returned sequence is ascending in
id, while the fetch itself was resolved to the descending id sort with the
in-memory reversal flag set. -/
theorem getLogs_lt_id_correct (f : LogFilter) (coll : List StoredLog) (v : OId)
    (h : f.lt_id = some v) :
    (getLogs f coll).items = (getLogsDocs f coll).map formatLog
    ∧ (getLogsPlan f).2 = (SortKey.idDesc, true)
    ∧ (∀ d ∈ getLogsDocs f coll, d._id.val < v.val)
    ∧ (getLogsDocs f coll).Pairwise fun a b => a._id.val ≤ b._id.val := by
  obtain ⟨hq, hsr⟩ := getLogsPlan_lt h
  have hdocs : getLogsDocs f coll =
      (mongoFind coll (getLogsPlan f).1 SortKey.idDesc (effLimit f)).reverse := by
    rw [getLogsDocs_eq, hsr]; simp
  refine ⟨rfl, hsr, ?_, ?_⟩
  · intro d hd
    rw [hdocs, List.mem_reverse] at hd
    have hm := (mem_mongoFind hd).2
    unfold logMatches at hm
    simp only [Bool.and_eq_true] at hm
    have hidlt := hm.1.1.1.2
    rw [hq] at hidlt
    simpa [idLtMatch] using hidlt
  · rw [hdocs, List.pairwise_reverse]
    refine (pairwise_mongoFind coll (getLogsPlan f).1 SortKey.idDesc (effLimit f)).imp ?_
    intro a b hab
    simp only [sortLe, sortField] at hab
    omega

theorem getLogs_lt_id_correct_witness :
    (({ lt_id := some ⟨4⟩ } : LogFilter).lt_id = some ⟨4⟩)
    ∧ (∀ d ∈ getLogsDocs { lt_id := some ⟨4⟩ } coll5, d._id.val < 4)
    ∧ (getLogsDocs { lt_id := some ⟨4⟩ } coll5).Pairwise (fun a b => a._id.val ≤ b._id.val) := by
  have h := getLogs_lt_id_correct { lt_id := some ⟨4⟩ } coll5 ⟨4⟩ rfl
  exact ⟨rfl, h.2.2.1, h.2.2.2⟩

theorem getLogsPlan_ts {f : LogFilter} {t1 t2 : Nat}
    (h1 : f.gte_timestamp = some t1) (h2 : f.lte_timestamp = some t2)
    (hlt : f.lt_id = none) (hgt : f.gt_id = none) :
    (getLogsPlan f).1.tsLte = some t2 ∧ (getLogsPlan f).1.tsGte = some t1
    ∧ (getLogsPlan f).2 = (SortKey.tsAsc, false) := by
  simp [getLogsPlan, h1, h2, hlt, hgt]

/-- C4: when the filter carries both timestamp bounds (and, per the data
model invariant, no id cursor), both bounds are applied to every returned
document, and the `gte_timestamp` branch wins the sort/reverse resolution:
ascending timestamp sort, no in-memory reversal, output ascending. -/
theorem getLogs_timestamp_window (f : LogFilter) (coll : List StoredLog) (t1 t2 : Nat)
    (h1 : f.gte_timestamp = some t1) (h2 : f.lte_timestamp = some t2)
    (hlt : f.lt_id = none) (hgt : f.gt_id = none) (_hT : t1 < t2) :
    (getLogsPlan f).2 = (SortKey.tsAsc, false)
    ∧ getLogsDocs f coll = mongoFind coll (getLogsPlan f).1 SortKey.tsAsc (effLimit f)
    ∧ (∀ d ∈ getLogsDocs f coll, t1 ≤ d.timestamp ∧ d.timestamp ≤ t2)
    ∧ (getLogsDocs f coll).Pairwise fun a b => a.timestamp ≤ b.timestamp := by
  obtain ⟨hle, hge, hsr⟩ := getLogsPlan_ts h1 h2 hlt hgt
  have hdocs : getLogsDocs f coll = mongoFind coll (getLogsPlan f).1 SortKey.tsAsc (effLimit f) := by
    rw [getLogsDocs_eq, hsr]; simp
  refine ⟨hsr, hdocs, ?_, ?_⟩
  · intro d hd
    rw [hdocs] at hd
    have hm := (mem_mongoFind hd).2
    unfold logMatches at hm
    simp only [Bool.and_eq_true] at hm
    have hlte := hm.1.2
    have hgte := hm.2
    rw [hle] at hlte
    rw [hge] at hgte
    constructor
    · simpa [tsGteMatch] using hgte
    · simpa [tsLteMatch] using hlte
  · rw [hdocs]
    refine (pairwise_mongoFind coll (getLogsPlan f).1 SortKey.tsAsc (effLimit f)).imp ?_
    intro a b hab
    simp only [sortLe, sortField] at hab
    omega

theorem getLogs_timestamp_window_witness :
    (∀ d ∈ getLogsDocs { lte_timestamp := some 11, gte_timestamp := some 4 } [logA, logB],
        4 ≤ d.timestamp ∧ d.timestamp ≤ 11)
    ∧ (getLogsPlan { lte_timestamp := some 11, gte_timestamp := some 4 }).2
        = (SortKey.tsAsc, false) := by
  have h := getLogs_timestamp_window { lte_timestamp := some 11, gte_timestamp := some 4 }
    [logA, logB] 4 11 rfl rfl rfl rfl (by decide)
  exact ⟨h.2.2.1, h.1⟩

theorem getLogsPlan_nocursor {f : LogFilter}
    (h1 : f.lt_id = none) (h2 : f.gt_id = none)
    (h3 : f.lte_timestamp = none) (h4 : f.gte_timestamp = none) :
    (getLogsPlan f).2 = (SortKey.idDesc, true) := by
  simp [getLogsPlan, h1, h2, h3, h4]

theorem searchLogsPlan_nocursor (terms : List String) {f : LogFilter}
    (h1 : f.lt_id = none) (h2 : f.gt_id = none)
    (h3 : f.lte_timestamp = none) (h4 : f.gte_timestamp = none) :
    (searchLogsPlan terms f).2 = (SortKey.tsDesc, true) := by
  simp [searchLogsPlan, h1, h2, h3, h4]

theorem searchLogsDocs_eq (terms : List String) (f : LogFilter) (coll : List StoredLog) :
    searchLogsDocs terms f coll =
      (if (searchLogsPlan terms f).2.2 then
        (mongoFind coll (searchLogsPlan terms f).1 (searchLogsPlan terms f).2.1 (effLimit f)).reverse
      else mongoFind coll (searchLogsPlan terms f).1 (searchLogsPlan terms f).2.1 (effLimit f)) := rfl

/-- C5 amended: with no cursor field present, `getLogs` defaults to the
descending id sort with the limit applied and the result reversed in memory;
`searchLogs` in the same case likewise applies the limit and reverses, but
its default fetch sort is descending timestamp (line 418), not descending id. -/
theorem default_sort_no_cursor (f : LogFilter) (coll : List StoredLog) (terms : List String)
    (h1 : f.lt_id = none) (h2 : f.gt_id = none)
    (h3 : f.lte_timestamp = none) (h4 : f.gte_timestamp = none) :
    (getLogsPlan f).2 = (SortKey.idDesc, true)
    ∧ (searchLogsPlan terms f).2 = (SortKey.tsDesc, true)
    ∧ getLogsDocs f coll = (mongoFind coll (getLogsPlan f).1 SortKey.idDesc (effLimit f)).reverse
    ∧ searchLogsDocs terms f coll =
        (mongoFind coll (searchLogsPlan terms f).1 SortKey.tsDesc (effLimit f)).reverse
    ∧ (getLogsDocs f coll).length ≤ effLimit f
    ∧ (searchLogsDocs terms f coll).length ≤ effLimit f := by
  have hg := getLogsPlan_nocursor h1 h2 h3 h4
  have hs := searchLogsPlan_nocursor terms h1 h2 h3 h4
  have hgd : getLogsDocs f coll =
      (mongoFind coll (getLogsPlan f).1 SortKey.idDesc (effLimit f)).reverse := by
    rw [getLogsDocs_eq, hg]; simp
  have hsd : searchLogsDocs terms f coll =
      (mongoFind coll (searchLogsPlan terms f).1 SortKey.tsDesc (effLimit f)).reverse := by
    rw [searchLogsDocs_eq, hs]; simp
  refine ⟨hg, hs, hgd, hsd, ?_, ?_⟩
  · rw [hgd]
    simp [mongoFind]
  · rw [hsd]
    simp [mongoFind]

theorem default_sort_no_cursor_witness :
    (getLogsPlan {}).2 = (SortKey.idDesc, true)
    ∧ (searchLogsPlan ["x"] {}).2 = (SortKey.tsDesc, true)
    ∧ (getLogsDocs {} [logA, logB]).length ≤ effLimit {} := by
  have h := default_sort_no_cursor {} [logA, logB] ["x"] rfl rfl rfl rfl
  exact ⟨h.1, h.2.1, h.2.2.2.2.1⟩

/-- C5 counterexample: on a two-document collection whose id order and
timestamp order disagree, `searchLogs` with no cursor fields returns the
documents in timestamp order `[logB, logA]` — not in the ascending id order
`[logA, logB]` that an id-descending fetch followed by the reversal would
produce, and its resolved sort key is not the descending id sort. -/
theorem searchLogs_default_sort_counterexample :
    searchLogsDocs ["x"] {} [logA, logB] = [logB, logA]
    ∧ (mongoFind [logA, logB] (searchLogsPlan ["x"] {}).1 SortKey.idDesc (effLimit {})).reverse
        = [logA, logB]
    ∧ ¬ ((searchLogsDocs ["x"] {} [logA, logB]).Pairwise fun a b => a._id.val ≤ b._id.val)
    ∧ (searchLogsPlan ["x"] {}).2.1 ≠ SortKey.idDesc := by
  refine ⟨by decide, by decide, by decide, by decide⟩

theorem levelPairs_any (d : StoredLog) (l : List LevelPair) :
    (l.map fun p => OrCond.levelPair p.source p.level).any (fun c => condMatches c d)
      = l.any fun pr => d.source == pr.source && d.level == pr.level := by
  induction l with
  | nil => rfl
  | cons p ps ih =>
    simp only [List.map_cons, List.any_cons]
    rw [ih]
    rfl

/-- C6: with both `level_json` pairs and a (truthy) `errsole_id` supplied,
the query built by `getLogs` matches a document exactly when some
source/level pair matches or the document's `errsole_id` equals the
filter's — both join the same `$or` set. -/
theorem getLogs_levelJson_errsoleId_or (pairs : List LevelPair) (e : Int) (d : StoredLog)
    (hp : pairs ≠ []) (he : e ≠ 0) :
    logMatches (getLogsPlan { level_json := some pairs, errsole_id := some e }).1 d =
      (pairs.any (fun pr => d.source == pr.source && d.level == pr.level)
        || d.errsole_id == some e) := by
  have hq : (getLogsPlan { level_json := some pairs, errsole_id := some e }).1 =
      { orConds := some (pairs.map (fun p => OrCond.levelPair p.source p.level) ++ [OrCond.errsoleEq e]) } := by
    simp [getLogsPlan, he, List.length_pos.mpr hp]
  rw [hq]
  simp only [logMatches, textMatches, hostMatch, pidMatch, sourceMatch, levelMatch, orMatch,
    idLtMatch, idGtMatch, tsLteMatch, tsGteMatch, Bool.true_and, Bool.and_true]
  rw [List.any_append, levelPairs_any]
  simp [condMatches]

theorem getLogs_levelJson_errsoleId_or_witness :
    logMatches (getLogsPlan { level_json := some [⟨"console", "error"⟩], errsole_id := some 42 }).1 logB =
      (([(⟨"console", "error"⟩ : LevelPair)].any fun pr => logB.source == pr.source && logB.level == pr.level)
        || logB.errsole_id == some 42) :=
  getLogs_levelJson_errsoleId_or [⟨"console", "error"⟩] 42 logB (by decide) (by decide)

theorem liveEntries_runOps {α : Type} (ops : List (BufOp α)) (s : BufState α) :
    liveEntries (runOps s ops) = liveEntries s ++ postedEntries ops := by
  induction ops generalizing s with
  | nil => simp [runOps, postedEntries]
  | cons op ops ih =>
    cases op with
    | post es =>
      rw [runOps, ih]
      simp [runOp, postLogs, liveEntries, postedEntries, List.append_assoc]
    | flushBegin =>
      rw [runOps, ih]
      have hclaim : liveEntries ((flushClaim s).1) = liveEntries s := by
        cases hp : s.pending with
        | nil => simp [flushClaim, liveEntries, hp]
        | cons a p => simp [flushClaim, liveEntries, hp]
      rw [runOp, hclaim, postedEntries]
    | flushCommit =>
      rw [runOps, ih]
      have hcommit : liveEntries ((flushSettle s (.ok ())).1) = liveEntries s := by
        cases hf : s.inFlight with
        | nil => simp [flushSettle, liveEntries, hf]
        | cons b rest => simp [flushSettle, liveEntries, hf]
      rw [runOp, hcommit, postedEntries]

/-- C2: over any interleaving of posts, flush claims and successful flush
commits, the entries alive in the pipeline are exactly the initial ones
followed by everything posted — nothing is lost or duplicated, so each entry
belongs to exactly one claimed batch; a flush claim always empties the
pending buffer atomically; a claim on an empty buffer returns resolved
success immediately, leaving the state (including the storage-call count)
untouched; and a claim on a nonempty buffer moves exactly the current pending
entries into one in-flight batch. -/
theorem flush_atomic_claim_partition :
    (∀ (α : Type) (s : BufState α) (ops : List (BufOp α)),
        liveEntries (runOps s ops) = liveEntries s ++ postedEntries ops)
    ∧ (∀ (α : Type) (s : BufState α), ((flushClaim s).1).pending = [])
    ∧ (∀ (α : Type) (fl : List (List α)) (st : List α) (n : Nat),
        flushClaim { pending := [], inFlight := fl, stored := st, storageCalls := n } =
          ({ pending := [], inFlight := fl, stored := st, storageCalls := n }, some (.resolved ())))
    ∧ (∀ (α : Type) (a : α) (p : List α) (fl : List (List α)) (st : List α) (n : Nat),
        flushClaim { pending := a :: p, inFlight := fl, stored := st, storageCalls := n } =
          ({ pending := [], inFlight := fl ++ [a :: p], stored := st, storageCalls := n }, none)) := by
  refine ⟨fun α s ops => liveEntries_runOps ops s, ?_, ?_, ?_⟩
  · intro α s
    unfold flushClaim
    cases hp : s.pending <;> simp
  · intro α fl st n
    rfl
  · intro α a p fl st n
    rfl

/-- C7: when the `insertMany` of a flushed batch fails, the error is returned
as the resolved value (never thrown/rejected), and the failed batch `b` is
dropped: the pending buffer keeps exactly the entries it had (nothing is
requeued) and the stored collection is unchanged. -/
theorem flushSettle_error_returned_not_requeued :
    ∀ (α : Type) (p b : List α) (rest : List (List α)) (st : List α) (n : Nat) (e : String),
      flushSettle { pending := p, inFlight := b :: rest, stored := st, storageCalls := n }
          (.error e) =
        ({ pending := p, inFlight := rest, stored := st, storageCalls := n + 1 },
          .resolved (.errVal e)) := by
  intro α p b rest st n e
  rfl

theorem find?_append_of_neg {α : Type} {p : α → Bool} {l1 : List α} (l2 : List α)
    (h : ∀ x ∈ l1, p x = false) : (l1 ++ l2).find? p = l2.find? p := by
  induction l1 with
  | nil => rfl
  | cons a l ih =>
    rw [List.cons_append, List.find?_cons_of_neg]
    · exact ih (fun x hx => h x (List.mem_cons_of_mem a hx))
    · simp [h a (List.mem_cons_self a l)]

/-- C3: starting from an index list whose only timestamp-keyed expiring index
has a different (nonzero-truthy) expiry than `X/1000`, the first call issues
exactly one drop and one create, and the second call with the same `X` finds
the freshly created matching index and issues zero mutations, returning the
index list unchanged. -/
theorem updateLogsCollectionTTL_idempotent
    (X : Nat) (pre post : List MongoIndex) (stale : MongoIndex)
    (hpre : ∀ i ∈ pre, isTTLIndexOnTimestamp i = false)
    (hpost : ∀ i ∈ post, isTTLIndexOnTimestamp i = false)
    (hstale : isTTLIndexOnTimestamp stale = true)
    (hdiff : stale.expireAfterSeconds ≠ some (X / 1000))
    (hX : X / 1000 ≠ 0)
    (hname : ∀ i ∈ pre ++ post, i.name ≠ stale.name) :
    updateLogsCollectionTTL X (pre ++ stale :: post) =
      ((pre ++ post) ++ [{ name := "timestamp_1", key := ["timestamp"], expireAfterSeconds := some (X / 1000) }], 1, 1)
    ∧ updateLogsCollectionTTL X
        ((pre ++ post) ++ [{ name := "timestamp_1", key := ["timestamp"], expireAfterSeconds := some (X / 1000) }]) =
      ((pre ++ post) ++ [{ name := "timestamp_1", key := ["timestamp"], expireAfterSeconds := some (X / 1000) }], 0, 0) := by
  have hfind1 : (pre ++ stale :: post).find? isTTLIndexOnTimestamp = some stale := by
    rw [find?_append_of_neg _ hpre, List.find?_cons_of_pos _ hstale]
  have hpre2 : pre.filter (fun i => i.name != stale.name) = pre :=
    List.filter_eq_self.mpr (fun i hi => bne_iff_ne.mpr (hname i (List.mem_append_left _ hi)))
  have hpost2 : post.filter (fun i => i.name != stale.name) = post :=
    List.filter_eq_self.mpr (fun i hi => bne_iff_ne.mpr (hname i (List.mem_append_right _ hi)))
  have hdrop : dropIndex (pre ++ stale :: post) stale.name = pre ++ post := by
    simp [dropIndex, List.filter_append, List.filter_cons, hpre2, hpost2]
  have hnew : isTTLIndexOnTimestamp
      { name := "timestamp_1", key := ["timestamp"], expireAfterSeconds := some (X / 1000) } = true := by
    simp [isTTLIndexOnTimestamp, hX]
  have hboth : ∀ i ∈ pre ++ post, isTTLIndexOnTimestamp i = false := by
    intro i hi
    rcases List.mem_append.mp hi with h | h
    · exact hpre i h
    · exact hpost i h
  have hfind2 : ((pre ++ post) ++
      ([{ name := "timestamp_1", key := ["timestamp"], expireAfterSeconds := some (X / 1000) }] : List MongoIndex)).find?
        isTTLIndexOnTimestamp =
      some { name := "timestamp_1", key := ["timestamp"], expireAfterSeconds := some (X / 1000) } := by
    rw [find?_append_of_neg _ hboth, List.find?_cons_of_pos _ hnew]
  constructor
  · simp only [updateLogsCollectionTTL, hfind1]
    rw [if_pos hdiff, hdrop]
  · simp only [updateLogsCollectionTTL, hfind2]
    rw [if_neg (fun hcon => hcon rfl)]

theorem updateLogsCollectionTTL_idempotent_witness :
    updateLogsCollectionTTL 2592000000 [{ name := "timestamp_1", key := ["timestamp"], expireAfterSeconds := some 5 }] =
      ([{ name := "timestamp_1", key := ["timestamp"], expireAfterSeconds := some 2592000 }], 1, 1)
    ∧ updateLogsCollectionTTL 2592000000 [{ name := "timestamp_1", key := ["timestamp"], expireAfterSeconds := some 2592000 }] =
      ([{ name := "timestamp_1", key := ["timestamp"], expireAfterSeconds := some 2592000 }], 0, 0) := by
  have h := updateLogsCollectionTTL_idempotent 2592000000 [] []
    { name := "timestamp_1", key := ["timestamp"], expireAfterSeconds := some 5 }
    (by simp) (by simp) (by decide) (by decide) (by decide) (by simp)
  simpa using h

/-- C8: every item returned by `getLogs`/`searchLogs` is the formatted image
of a fetched document — its `id` is the string conversion of the engine key
(a `strId`, so the internal `_id` name is never exposed) and its `meta` is
absent (`none`, from the `{meta: 0}` projection); and for a stored entry with
a `meta` payload, `getMeta` on its id resolves with exactly that stored
payload. -/
theorem list_ids_strings_meta_hidden :
    (∀ (f : LogFilter) (coll : List StoredLog) (it : LogItem),
        it ∈ (getLogs f coll).items →
          (∃ d ∈ getLogsDocs f coll, it = formatLog d ∧ it.id = .strId (OId.str d._id))
          ∧ it.meta = none)
    ∧ (∀ (terms : List String) (f : LogFilter) (coll : List StoredLog) (it : LogItem),
        it ∈ (searchLogs terms f coll).items →
          (∃ d ∈ searchLogsDocs terms f coll, it = formatLog d ∧ it.id = .strId (OId.str d._id))
          ∧ it.meta = none)
    ∧ (∀ (i : OId) (coll : List StoredLog) (d : StoredLog) (m : String),
        coll.find? (fun x => x._id == i) = some d → d.meta = some m →
        getMeta i coll = .resolved { id := .rawId d._id, meta := some m }) := by
  refine ⟨?_, ?_, ?_⟩
  · intro f coll it hit
    obtain ⟨d, hd, hfmt⟩ := List.mem_map.mp hit
    subst hfmt
    exact ⟨⟨d, hd, rfl, rfl⟩, rfl⟩
  · intro terms f coll it hit
    obtain ⟨d, hd, hfmt⟩ := List.mem_map.mp hit
    subst hfmt
    exact ⟨⟨d, hd, rfl, rfl⟩, rfl⟩
  · intro i coll d m hfind hmeta
    simp only [getMeta, hfind, hmeta]

theorem list_ids_strings_meta_hidden_witness :
    (getMeta ⟨7⟩ [dM] = .resolved { id := .rawId ⟨7⟩, meta := some "payload" })
    ∧ ((∃ d ∈ getLogsDocs {} [dM],
          formatLog dM = formatLog d ∧ (formatLog dM).id = .strId (OId.str d._id))
        ∧ (formatLog dM).meta = none) := by
  constructor
  · exact list_ids_strings_meta_hidden.2.2 ⟨7⟩ [dM] dM "payload" rfl rfl
  · exact list_ids_strings_meta_hidden.1 {} [dM] (formatLog dM) (by decide)

/-- C9: `getMeta` resolves with the raw engine ObjectId in its `id` field
(`rawId`, never equal to any string conversion), while every item of
`getLogs`/`searchLogs` carries a converted string id (`strId`). -/
theorem getMeta_returns_raw_id :
    (∀ (i : OId) (coll : List StoredLog) (d : StoredLog),
        coll.find? (fun x => x._id == i) = some d →
          getMeta i coll = .resolved { id := .rawId d._id, meta := d.meta }
          ∧ ∀ s : String, IdVal.rawId d._id ≠ IdVal.strId s)
    ∧ (∀ (f : LogFilter) (coll : List StoredLog) (it : LogItem),
        it ∈ (getLogs f coll).items → ∃ s : String, it.id = .strId s)
    ∧ (∀ (terms : List String) (f : LogFilter) (coll : List StoredLog) (it : LogItem),
        it ∈ (searchLogs terms f coll).items → ∃ s : String, it.id = .strId s) := by
  refine ⟨?_, ?_, ?_⟩
  · intro i coll d hfind
    constructor
    · unfold getMeta
      rw [hfind]
    · intro s hcon
      cases hcon
  · intro f coll it hit
    obtain ⟨d, _, hfmt⟩ := List.mem_map.mp hit
    exact ⟨OId.str d._id, by rw [← hfmt]; rfl⟩
  · intro terms f coll it hit
    obtain ⟨d, _, hfmt⟩ := List.mem_map.mp hit
    exact ⟨OId.str d._id, by rw [← hfmt]; rfl⟩

theorem getMeta_returns_raw_id_witness :
    (getMeta ⟨7⟩ [dM] = .resolved { id := .rawId dM._id, meta := dM.meta }
      ∧ ∀ s : String, IdVal.rawId dM._id ≠ IdVal.strId s)
    ∧ (∃ s : String, (formatLog dM).id = .strId s) := by
  constructor
  · exact getMeta_returns_raw_id.1 ⟨7⟩ [dM] dM rfl
  · exact getMeta_returns_raw_id.2.1 {} [dM] (formatLog dM) (by decide)

/-- C10: `getHostnames` never rejects — whatever the distinct query does, it
resolves; and when the storage call fails, the caught error object itself is
the resolved value. -/
theorem getHostnames_never_rejects :
    (∀ e : String, getHostnames (.error e) = .resolved (.errVal e))
    ∧ (∀ r : Except String (List String), ∃ v, getHostnames r = .resolved v) := by
  constructor
  · intro e
    rfl
  · intro r
    cases r with
    | ok l => exact ⟨_, rfl⟩
    | error e => exact ⟨_, rfl⟩
